import Mathlib

/-!
Shallow embedding of the music notation compiler and playback scheduler in
`src/audio.rs` (`VoicePlayer::new`, `VoicePlayer::play`, `SongPlayer::try_from`).

Modelling conventions:
* Rust `f32` and `f64` values are modelled as `ℚ`.  Every arithmetic
  operation the compiled code can actually reach (dividing the unit length by
  4 and 32, multiplying a base frequency by a power-of-two octave multiplier)
  is exact in binary floating point, so the rational model agrees with the
  floating-point program on every reachable value.
* Rust panics (`expect` on a failed regex match, out-of-bounds array
  indexing) and returned `Err` values are both modelled as `Except.error`;
  the `VErr.crashes` flag records which errors abort the process (panics)
  and which are error results returned to the caller.
* Strings are modelled as `List Char`.  `split_whitespace`, the token
  pattern of line 60 (group 1: one or more lowercase letters; group 2: an
  optional comma or apostrophe, code point 39; group 3: an optional
  occurrence of the literal three-character text 1-9; group 4: an optional
  arbitrary character other than a newline) and `str::parse::<u64>` are
  embedded directly.
  The pattern is unanchored, so `captures` matches at the first position
  where a lowercase letter occurs; all groups after group 1 are optional,
  hence no backtracking into group 1 is ever required.
-/

/-- The apostrophe character (code point 39), the up-octave mark. -/
def apost : Char := Char.ofNat 39

/-- ASCII lowercase letter test, the character class of capture group 1. -/
def isLowerAZ (c : Char) : Bool := decide (97 ≤ c.toNat ∧ c.toNat ≤ 122)

/-- Greedy maximal run of lowercase letters: the text taken by group 1
together with the remaining input. -/
def takeLowerRun : List Char → List Char × List Char
  | [] => ([], [])
  | c :: rest =>
    if isLowerAZ c then
      ((takeLowerRun rest).1.cons c, (takeLowerRun rest).2)
    else ([], c :: rest)

/-- Capture group 2: an optional comma or apostrophe. -/
def readMark : List Char → Option Char × List Char
  | [] => (none, [])
  | c :: t => if c = ',' ∨ c = apost then (some c, t) else (none, c :: t)

/-- Capture group 3: the regex source contains the literal text 1-9 (not a
character class), so this group matches exactly that three-character text. -/
def readDur (r : List Char) : Option (List Char) × List Char :=
  match r with
  | c1 :: c2 :: c3 :: t =>
    if c1 = '1' ∧ c2 = '-' ∧ c3 = '9' then (some [c1, c2, c3], t) else (none, r)
  | _ => (none, r)

/-- The four capture groups of the token pattern. -/
structure Captures where
  g1 : List Char
  g2 : Option Char
  g3 : Option (List Char)
  g4 : Option Char
deriving DecidableEq

/-- Capture group 4: the dot position in the pattern, which is an
unescaped dot and therefore matches any single character except a
newline. -/
def readAnyChar : List Char → Option Char
  | [] => none
  | c :: _ => if c = Char.ofNat 10 then none else some c

/-- Match the token pattern at a position whose head is a lowercase letter:
group 1 greedily takes the letter run, then groups 2 to 4 each try to
consume in order. -/
def matchFrom (s : List Char) : Captures :=
  ⟨(takeLowerRun s).1,
   (readMark (takeLowerRun s).2).1,
   (readDur (readMark (takeLowerRun s).2).2).1,
   readAnyChar (readDur (readMark (takeLowerRun s).2).2).2⟩

/-- `Regex::captures` on a token: leftmost match.  The pattern can only start
at a lowercase letter (group 1 is mandatory), so scan to the first one;
a token with no lowercase letter has no match at all. -/
def rgxCaptures : List Char → Option Captures
  | [] => none
  | c :: rest => if isLowerAZ c then some (matchFrom (c :: rest)) else rgxCaptures rest

/-- `str::parse::<u64>`: one or more ASCII digits, value below 2^64. -/
def parseU64 (s : List Char) : Option Nat :=
  if s ≠ [] ∧ s.all Char.isDigit then
    if s.foldl (fun acc c => acc * 10 + (c.toNat - 48)) 0 < 2 ^ 64 then
      some (s.foldl (fun acc c => acc * 10 + (c.toNat - 48)) 0)
    else none
  else none

/-- `split_whitespace`: runs of non-whitespace characters, no empty tokens.
The first argument accumulates the current token in reverse. -/
def splitWsAux : List Char → List Char → List (List Char)
  | cur, [] => if cur.isEmpty then [] else [cur.reverse]
  | cur, c :: rest =>
    if c.isWhitespace then
      if cur.isEmpty then splitWsAux [] rest
      else cur.reverse :: splitWsAux [] rest
    else splitWsAux (c :: cur) rest

/-- Whitespace-splitting of a voice note string. -/
def splitWhitespace (s : List Char) : List (List Char) := splitWsAux [] s

/-- The `note_indices` map: 17 pitch-class spellings to semitone index. -/
def pitchIndex (s : List Char) : Option Int :=
  if s = ['c'] then some 0
  else if s = ['c', 'i', 's'] then some 1
  else if s = ['d', 'e', 's'] then some 1
  else if s = ['d'] then some 2
  else if s = ['d', 'i', 's'] then some 3
  else if s = ['e', 's'] then some 3
  else if s = ['e'] then some 4
  else if s = ['f'] then some 5
  else if s = ['f', 'i', 's'] then some 6
  else if s = ['g', 'e', 's'] then some 6
  else if s = ['g'] then some 7
  else if s = ['g', 'i', 's'] then some 8
  else if s = ['a', 's'] then some 8
  else if s = ['a'] then some 9
  else if s = ['a', 'i', 's'] then some 10
  else if s = ['b', 'e', 's'] then some 10
  else if s = ['b'] then some 11
  else none

/-- The `frequencies` table of 12 base frequencies. -/
def frequencies : List ℚ :=
  [261, 277, 293, 311, 329, 349, 369, 392, 415, 440, 466, 493]

/-- The `octaves` array of 5 octave multipliers. -/
def octaves : List ℚ := [1/8, 1/4, 1/2, 1, 2]

/-- Resolver state carried across the tokens of one voice
(`last_octave`, `last_pitch_idx`, `last_duration` in `VoicePlayer::new`). -/
structure RState where
  last_octave : Nat
  last_pitch_idx : Int
  last_duration : ℚ
deriving DecidableEq

/-- A resolved note (struct `Note` of the source). -/
structure Note where
  frequency : ℚ
  duration : ℚ
deriving DecidableEq

/-- Compilation outcomes other than success.  Constructors prefixed `crash`
model Rust panics (`expect`, out-of-bounds indexing); the others model `Err`
values returned to the caller via `?`.  `missingPitch` is the error attached
to a missing capture group 1; since group 1 is mandatory in the pattern it is
unreachable, but it is part of the source. -/
inductive VErr where
  | crashMalformedNote (tok : List Char)
  | missingPitch (tok : List Char)
  | unknownPitch (pitch tok : List Char)
  | invalidDuration (txt tok : List Char)
  | crashIndexOutOfBounds
deriving DecidableEq

/-- Does this error abort the process (a panic) rather than being returned? -/
def VErr.crashes : VErr → Bool
  | .crashMalformedNote _ => true
  | .crashIndexOutOfBounds => true
  | _ => false

/-- Is this error the unknown-pitch error? -/
def VErr.isUnknownPitch : VErr → Bool
  | .unknownPitch _ _ => true
  | _ => false

/-- Octave-continuity adjustment, lines 89–97: the signed difference of the
new semitone index and the last one, compared against 6. -/
def continuityOctave (last_pitch_idx : Int) (last_octave : Nat) (pidx : Int) : Nat :=
  if pidx - last_pitch_idx > 6 then
    if pidx > 6 then
      if last_octave + 1 < octaves.length then last_octave + 1 else last_octave
    else
      if 0 < last_octave then last_octave - 1 else last_octave
  else last_octave

/-- Explicit octave-modifier adjustment, lines 99–107.  The down-mark case
checks `last_octave > 0`; the up-mark case checks `last_octave <
octaves.len()` (not `last_octave + 1 < octaves.len()`). -/
def modifierOctave (g2 : Option Char) (oct : Nat) : Nat :=
  match g2 with
  | none => oct
  | some c =>
    if c = ',' then
      if 0 < oct then oct - 1 else oct
    else
      if oct < octaves.length then oct + 1 else oct

/-- Duration handling, lines 114–127: only runs when group 3 captured; the
captured text must parse as a `u64`; a trailing group-4 capture multiplies
the digit-derived duration by 1.5. -/
def durationStep (u : ℚ) (last : ℚ) (cap : Captures) (tok : List Char) : Except VErr ℚ :=
  match cap.g3 with
  | none => .ok last
  | some ds =>
    match parseU64 ds with
    | none => .error (.invalidDuration ds tok)
    | some d =>
      .ok (if cap.g4.isSome then u / (d : ℚ) * (3/2) else u / (d : ℚ))

/-- Processing of one raw token by the loop body of `VoicePlayer::new`
(lines 71–139): regex capture (panic when there is no match), rest check,
pitch lookup, octave continuity and modifier, frequency via the two tables
(out-of-bounds indexing is a panic), then the duration step shared by rests
and pitched notes. -/
def processToken (u : ℚ) (st : RState) (tok : List Char) : Except VErr (RState × Note) :=
  match rgxCaptures tok with
  | none => .error (.crashMalformedNote tok)
  | some cap =>
    if cap.g1 = ['r'] then
      match durationStep u st.last_duration cap tok with
      | .error e => .error e
      | .ok d => .ok ({ st with last_duration := d }, ⟨0, d⟩)
    else
      match pitchIndex cap.g1 with
      | none => .error (.unknownPitch cap.g1 tok)
      | some pidx =>
        match octaves[modifierOctave cap.g2 (continuityOctave st.last_pitch_idx st.last_octave pidx)]? with
        | none => .error .crashIndexOutOfBounds
        | some m =>
          match frequencies[pidx.toNat]? with
          | none => .error .crashIndexOutOfBounds
          | some bf =>
            match durationStep u st.last_duration cap tok with
            | .error e => .error e
            | .ok d =>
              .ok (⟨modifierOctave cap.g2 (continuityOctave st.last_pitch_idx st.last_octave pidx),
                    pidx, d⟩,
                   ⟨bf * m, d⟩)

/-- The token loop of `VoicePlayer::new`: sequentially resolve all tokens,
returning the notes together with the final resolver state. -/
def resolveTokens (u : ℚ) (st : RState) : List (List Char) → Except VErr (List Note × RState)
  | [] => .ok ([], st)
  | t :: ts =>
    match processToken u st t with
    | .error e => .error e
    | .ok (st2, n) =>
      match resolveTokens u st2 ts with
      | .error e => .error e
      | .ok (ns, st3) => .ok (n :: ns, st3)

/-- Initial resolver state of a voice: octave index 2, semitone index 6,
duration `unit_length / 4` (lines 66–70). -/
def initState (u : ℚ) : RState := ⟨2, 6, u / 4⟩

/-- Compilation of one voice note string (`VoicePlayer::new`). -/
def compileVoice (u : ℚ) (s : List Char) : Except VErr (List Note) :=
  (resolveTokens u (initState u) (splitWhitespace s)).map Prod.fst

/-- Compilation of all voices of a song (`SongPlayer::try_from`): the first
voice error aborts the whole song. -/
def compileSongVoices (u : ℚ) : List (List Char) → Except VErr (List (List Note))
  | [] => .ok []
  | v :: vs =>
    match compileVoice u v with
    | .error e => .error e
    | .ok ns =>
      match compileSongVoices u vs with
      | .error e => .error e
      | .ok rest => .ok (ns :: rest)

/-- The automation points submitted by `VoicePlayer::play` (lines 161–176)
starting from a given running offset: per note a set-frequency entry at the
offset and a mute entry at `offset + duration - unit_length/32`, then one
terminal mute entry at the final offset. -/
def scheduleFrom (u : ℚ) (offset : ℚ) : List Note → List (ℚ × ℚ)
  | [] => [(offset, 0)]
  | n :: ns =>
    (offset, n.frequency) :: (offset + n.duration - u / 32, 0) ::
      scheduleFrom u (offset + n.duration) ns

/-- The full schedule of a voice, offset starting at 0. -/
def schedule (u : ℚ) (ns : List Note) : List (ℚ × ℚ) := scheduleFrom u 0 ns

/-- Sum of the durations of a list of notes. -/
def durSum (ns : List Note) : ℚ := (ns.map Note.duration).sum

/-- The pitch-name text the tokenizer extracts from a token (group 1), when
the token matches at all. -/
def tokenPitch (tok : List Char) : Option (List Char) :=
  (rgxCaptures tok).map Captures.g1

/-- Modelled from the spec wording of claim C10: the first maximal run of
lowercase letters in a token. -/
def firstLowerRun : List Char → List Char
  | [] => []
  | c :: rest => if isLowerAZ c then (takeLowerRun (c :: rest)).1 else firstLowerRun rest

/-- Greedy maximal run of ASCII digits, used by the spec-side grammar. -/
def takeDigitRun : List Char → List Char × List Char
  | [] => ([], [])
  | c :: rest =>
    if c.isDigit then ((takeDigitRun rest).1.cons c, (takeDigitRun rest).2)
    else ([], c :: rest)

/-- Modelled from the spec wording of claim C5: the anchored whole-token
grammar letters, then an optional octave mark, then an optional digit run,
then an optional dot, with nothing left over. -/
def matchesSpecGrammar (tok : List Char) : Bool :=
  let p1 := takeLowerRun tok
  let r2 :=
    match p1.2 with
    | c :: t => if c = ',' ∨ c = apost then t else p1.2
    | [] => []
  let p3 := takeDigitRun r2
  let r4 :=
    match p3.2 with
    | c :: t => if c = '.' then t else p3.2
    | [] => []
  !p1.1.isEmpty && r4.isEmpty

/-- Modelled from the spec wording of claim C3: octave continuity via the
unsigned (absolute) difference, incrementing (clamped at 4) when the new
index exceeds 6 and decrementing (clamped at 0) otherwise. -/
def claimedContinuityOctave (last_pitch_idx : Int) (oct : Nat) (pidx : Int) : Nat :=
  if 6 < (pidx - last_pitch_idx).natAbs then
    if 6 < pidx then min (oct + 1) 4 else oct - 1
  else oct

/-- Unfolding of `durSum` on a cons cell. -/
theorem durSum_cons (n : Note) (l : List Note) :
    durSum (n :: l) = n.duration + durSum l := by
  simp [durSum]

/-- The schedule of a voice has one set entry and one mute entry per note
plus the terminal mute entry. -/
theorem scheduleFrom_length (u o : ℚ) (ns : List Note) :
    (scheduleFrom u o ns).length = 2 * ns.length + 1 := by
  induction ns generalizing o with
  | nil => rfl
  | cons n ns ih => simp [scheduleFrom, ih]; omega

/-- Entry `2*i` of a schedule: set the frequency of note `i` at the running
offset, which is the starting offset plus the durations before it. -/
theorem scheduleFrom_getElem_even (u o : ℚ) (ns : List Note) (i : Nat) (h : i < ns.length) :
    (scheduleFrom u o ns)[2 * i]? = some (o + durSum (ns.take i), ns[i].frequency) := by
  induction ns generalizing o i with
  | nil => cases h
  | cons n ns ih =>
    cases i with
    | zero => simp [scheduleFrom, durSum]
    | succ i =>
      have h2 : i < ns.length := Nat.lt_of_succ_lt_succ h
      have heq := ih (o + n.duration) i h2
      have : 2 * (i + 1) = 2 * i + 1 + 1 := by omega
      rw [this]
      simp only [scheduleFrom, List.getElem?_cons_succ, List.getElem_cons_succ,
        List.take_succ_cons, durSum_cons, heq]
      rw [add_assoc]

/-- Entry `2*i + 1` of a schedule: mute shortly before the nominal end of
note `i`. -/
theorem scheduleFrom_getElem_odd (u o : ℚ) (ns : List Note) (i : Nat) (h : i < ns.length) :
    (scheduleFrom u o ns)[2 * i + 1]? =
      some (o + durSum (ns.take i) + ns[i].duration - u / 32, 0) := by
  induction ns generalizing o i with
  | nil => cases h
  | cons n ns ih =>
    cases i with
    | zero => simp [scheduleFrom, durSum]
    | succ i =>
      have h2 : i < ns.length := Nat.lt_of_succ_lt_succ h
      have heq := ih (o + n.duration) i h2
      have : 2 * (i + 1) + 1 = 2 * i + 1 + 1 + 1 := by omega
      rw [this]
      simp only [scheduleFrom, List.getElem?_cons_succ, List.getElem_cons_succ,
        List.take_succ_cons, durSum_cons, heq]
      simp only [Option.some.injEq, Prod.mk.injEq]
      exact ⟨by ring, trivial⟩

/-- The entry after all per-note entries is the terminal mute entry at the
sum of all durations. -/
theorem scheduleFrom_getElem_last (u o : ℚ) (ns : List Note) :
    (scheduleFrom u o ns)[2 * ns.length]? = some (o + durSum ns, 0) := by
  induction ns generalizing o with
  | nil => simp [scheduleFrom, durSum]
  | cons n ns ih =>
    have : 2 * (n :: ns).length = 2 * ns.length + 1 + 1 := by simp; omega
    rw [this]
    simp only [scheduleFrom, List.getElem?_cons_succ, durSum_cons, ih]
    rw [add_assoc]

/-- The first schedule entry carries the starting offset as its timestamp. -/
theorem scheduleFrom_head (u o : ℚ) (ns : List Note) :
    ∃ f, (scheduleFrom u o ns).head? = some (o, f) := by
  cases ns <;> exact ⟨_, rfl⟩

/-- Timestamps are non-decreasing provided the unit length is non-negative
and no note is shorter than the staccato gap. -/
theorem scheduleFrom_chain (u o : ℚ) (ns : List Note) (hu : 0 ≤ u)
    (hd : ∀ n ∈ ns, u / 32 ≤ n.duration) :
    List.Chain' (fun a b : ℚ × ℚ => a.1 ≤ b.1) (scheduleFrom u o ns) := by
  induction ns generalizing o with
  | nil => simp [scheduleFrom]
  | cons n ns ih =>
    have hn : u / 32 ≤ n.duration := hd n (by simp)
    have hrest := ih (o + n.duration) (fun m hm => hd m (by simp [hm]))
    rw [scheduleFrom]
    refine List.chain'_cons.mpr ⟨by simp; linarith, ?_⟩
    refine List.chain'_cons'.mpr ⟨?_, hrest⟩
    intro y hy
    obtain ⟨f, hf⟩ := scheduleFrom_head u (o + n.duration) ns
    rw [hf, Option.mem_some_iff] at hy
    subst hy
    have h32 : 0 ≤ u / 32 := by positivity
    simp
    linarith

/-- Group 3 either fails to capture or captures the literal text 1-9. -/
theorem readDur_fst (r : List Char) :
    (readDur r).1 = none ∨ (readDur r).1 = some ['1', '-', '9'] := by
  rcases r with _ | ⟨c1, r⟩
  · simp [readDur]
  rcases r with _ | ⟨c2, r⟩
  · simp [readDur]
  rcases r with _ | ⟨c3, t⟩
  · simp [readDur]
  by_cases h : c1 = '1' ∧ c2 = '-' ∧ c3 = '9'
  · right; simp [readDur, h.1, h.2.1, h.2.2]
  · left; simp [readDur, h]

/-- Whatever the token, a successful match captures in group 3 either
nothing or the literal text 1-9. -/
theorem rgxCaptures_g3 (tok : List Char) (cap : Captures)
    (h : rgxCaptures tok = some cap) :
    cap.g3 = none ∨ cap.g3 = some ['1', '-', '9'] := by
  induction tok with
  | nil => simp [rgxCaptures] at h
  | cons c rest ih =>
    rw [rgxCaptures] at h
    by_cases hc : isLowerAZ c = true
    · rw [if_pos hc, Option.some.injEq] at h
      subst h
      exact readDur_fst _
    · rw [if_neg hc] at h
      exact ih h

/-- The captured text 1-9 never parses as a `u64`. -/
theorem parseU64_litDur : parseU64 ['1', '-', '9'] = none := by rfl

/-- The duration step either keeps the previous duration or fails; it never
installs a new duration. -/
theorem durationStep_shape (u last : ℚ) (cap : Captures) (tok : List Char)
    (h : cap.g3 = none ∨ cap.g3 = some ['1', '-', '9']) :
    durationStep u last cap tok = .ok last ∨
      durationStep u last cap tok = .error (.invalidDuration ['1', '-', '9'] tok) := by
  rcases h with h | h
  · left; simp [durationStep, h]
  · right; simp [durationStep, h, parseU64_litDur]

/-- A successfully processed token leaves the running duration untouched and
emits a note with that same duration. -/
theorem processToken_ok_duration (u : ℚ) (st : RState) (tok : List Char)
    (st2 : RState) (n : Note) (h : processToken u st tok = .ok (st2, n)) :
    n.duration = st.last_duration ∧ st2.last_duration = st.last_duration := by
  unfold processToken at h
  split at h
  · cases h
  next cap hcap =>
    have hshape := durationStep_shape u st.last_duration cap tok (rgxCaptures_g3 tok cap hcap)
    split at h
    · split at h
      · cases h
      next d hd =>
        rcases hshape with hok | herr
        · rw [hok] at hd
          injection hd with hd2
          cases h
          exact ⟨hd2.symm, hd2.symm⟩
        · rw [herr] at hd
          cases hd
    · split at h
      · cases h
      next pidx hp =>
        split at h
        · cases h
        next m hm =>
          split at h
          · cases h
          next bf hbf =>
            split at h
            · cases h
            next d hd =>
              rcases hshape with hok | herr
              · rw [hok] at hd
                injection hd with hd2
                cases h
                exact ⟨hd2.symm, hd2.symm⟩
              · rw [herr] at hd
                cases hd

/-- The running duration of a voice is never changed by any token: every
emitted note inherits the duration the state started with. -/
theorem resolveTokens_duration (u : ℚ) (toks : List (List Char)) (st : RState)
    (ns : List Note) (st2 : RState) (h : resolveTokens u st toks = .ok (ns, st2)) :
    (∀ n ∈ ns, n.duration = st.last_duration) ∧
      st2.last_duration = st.last_duration := by
  induction toks generalizing st ns with
  | nil =>
    rw [resolveTokens] at h
    cases h
    exact ⟨by simp, rfl⟩
  | cons t ts ih =>
    rw [resolveTokens] at h
    split at h
    · cases h
    next st3 m hm =>
      split at h
      · cases h
      next ms st4 hms =>
        cases h
        obtain ⟨hm1, hm2⟩ := processToken_ok_duration u st t st3 m hm
        obtain ⟨hall, hlast⟩ := ih st3 ms hms
        refine ⟨?_, by rw [hlast, hm2]⟩
        intro n hn
        rcases List.mem_cons.mp hn with rfl | hn
        · exact hm1
        · rw [hall n hn, hm2]

/-- Every note of a successfully compiled voice has the default duration
`unit_length / 4`. -/
theorem compileVoice_ok_duration (u : ℚ) (s : List Char) (ns : List Note)
    (h : compileVoice u s = .ok ns) : ∀ n ∈ ns, n.duration = u / 4 := by
  unfold compileVoice at h
  cases hr : resolveTokens u (initState u) (splitWhitespace s) with
  | error e => rw [hr] at h; cases h
  | ok p =>
    rw [hr] at h
    simp only [Except.map] at h
    cases h
    exact (resolveTokens_duration u _ _ p.1 p.2 (by rw [hr])).1

/-- If a prefix of the token list resolves successfully and the next token
fails from the state the prefix reached, the whole list fails with exactly
that error. -/
theorem resolveTokens_append_err (u : ℚ) (l1 : List (List Char)) (st st2 : RState)
    (ns : List Note) (h1 : resolveTokens u st l1 = .ok (ns, st2))
    (tok : List Char) (post : List (List Char)) (e : VErr)
    (he : processToken u st2 tok = .error e) :
    resolveTokens u st (l1 ++ tok :: post) = .error e := by
  induction l1 generalizing st ns with
  | nil =>
    rw [resolveTokens] at h1
    cases h1
    simp [resolveTokens, he]
  | cons t ts ih =>
    rw [resolveTokens] at h1
    split at h1
    · cases h1
    next st3 m hm =>
      split at h1
      · cases h1
      next ms st4 hms =>
        cases h1
        simp only [List.cons_append, resolveTokens, hm, List.append_eq, ih st3 ms hms]

/-- A token whose extracted pitch name is neither the rest name nor a known
pitch fails, from any resolver state, with the unknown-pitch error. -/
theorem processToken_unknownPitch (tok : List Char) (p : List Char)
    (hp : tokenPitch tok = some p) (hr : p ≠ ['r'])
    (hu : pitchIndex p = none) (u : ℚ) (st : RState) :
    processToken u st tok = .error (.unknownPitch p tok) := by
  unfold tokenPitch at hp
  cases hcap : rgxCaptures tok with
  | none => rw [hcap] at hp; cases hp
  | some cap =>
    rw [hcap] at hp
    have hp2 : cap.g1 = p := by simpa using hp
    unfold processToken
    rw [hcap]
    simp only [hp2, if_neg hr, hu]

/-- If some token of the list fails from every state, the whole resolution
fails (with some error, possibly produced by an earlier token). -/
theorem resolveTokens_err_of_mem (u : ℚ) (toks : List (List Char))
    (tok : List Char) (hmem : tok ∈ toks)
    (hfail : ∀ st : RState, ∃ e, processToken u st tok = .error e) (st : RState) :
    ∃ e, resolveTokens u st toks = .error e := by
  induction toks generalizing st with
  | nil => cases hmem
  | cons t ts ih =>
    rcases List.mem_cons.mp hmem with rfl | hmem2
    · obtain ⟨e, he⟩ := hfail st
      exact ⟨e, by simp [resolveTokens, he]⟩
    · cases hp : processToken u st t with
      | error e => exact ⟨e, by simp [resolveTokens, hp]⟩
      | ok q =>
        cases q with
        | mk st2 n =>
          obtain ⟨e, he⟩ := ih hmem2 st2
          exact ⟨e, by simp [resolveTokens, hp, he]⟩

/-- A failing voice makes the whole song compilation fail. -/
theorem compileSongVoices_err (u : ℚ) (vs : List (List Char)) (v : List Char)
    (hmem : v ∈ vs) (hfail : ∃ e, compileVoice u v = .error e) :
    ∃ e, compileSongVoices u vs = .error e := by
  induction vs with
  | nil => cases hmem
  | cons w ws ih =>
    rcases List.mem_cons.mp hmem with rfl | hmem2
    · obtain ⟨e, he⟩ := hfail
      exact ⟨e, by simp [compileSongVoices, he]⟩
    · cases hw : compileVoice u w with
      | error e => exact ⟨e, by simp [compileSongVoices, hw]⟩
      | ok ns =>
        obtain ⟨e, he⟩ := ih hmem2
        exact ⟨e, by simp [compileSongVoices, hw, he]⟩

/-- A token with no lowercase letter has no match at all. -/
theorem rgxCaptures_eq_none (tok : List Char)
    (h : ∀ c ∈ tok, isLowerAZ c = false) : rgxCaptures tok = none := by
  induction tok with
  | nil => rfl
  | cons c rest ih =>
    rw [rgxCaptures, if_neg (by simp [h c (by simp)])]
    exact ih fun d hd => h d (by simp [hd])

/-- A token containing a lowercase letter matches, and group 1 is the first
maximal lowercase-letter run. -/
theorem rgxCaptures_eq_some (tok : List Char) (h : ∃ c ∈ tok, isLowerAZ c = true) :
    ∃ cap, rgxCaptures tok = some cap ∧ cap.g1 = firstLowerRun tok := by
  induction tok with
  | nil => simp at h
  | cons c rest ih =>
    by_cases hc : isLowerAZ c = true
    · refine ⟨matchFrom (c :: rest), ?_, ?_⟩
      · rw [rgxCaptures, if_pos hc]
      · rw [firstLowerRun, if_pos hc]; rfl
    · obtain ⟨d, hd, hdl⟩ := h
      rcases List.mem_cons.mp hd with rfl | hd2
      · exact absurd hdl hc
      obtain ⟨cap, hcap, hg1⟩ := ih ⟨d, hd2, hdl⟩
      refine ⟨cap, ?_, ?_⟩
      · rw [rgxCaptures, if_neg hc]; exact hcap
      · rw [firstLowerRun, if_neg hc]; exact hg1

/-- C1: the claim says the octave index always stays within [0, 4] and an
explicit up-mark increments only when the index is below 4.  In fact the
up-mark branch tests `last_octave < octaves.len()`, so three up-marked
tokens drive the index from 2 to 5, and reading `octaves[5]` is an
out-of-bounds access — a panic — on the 5-entry multiplier table. -/
theorem C1_octave_oob_eval :
    modifierOctave (some apost) 4 = 5 ∧ octaves.length = 5 ∧ octaves[5]? = none ∧
    compileVoice 4 ['c', apost, ' ', 'c', apost, ' ', 'c', apost] =
      .error .crashIndexOutOfBounds ∧
    VErr.crashIndexOutOfBounds.crashes = true :=
  ⟨by rfl, by rfl, by rfl, by with_unfolding_all rfl, by rfl⟩

/-- C2: the claim predicts durations 1, 1, 1, 2 and a terminal mute at 5.0
for unit length 4 and notes c4 e4 g4 c2.  The code yields durations
1, 1, 1, 1 (the duration capture group is the literal text 1-9, so the
digits 4 and 2 are never captured), mute points at 0.875, 1.875, 2.875,
3.875 and the terminal zero at 4.0; the base frequencies are 261, 329, 392,
261 scaled by the octave-2 multiplier 1/2. -/
theorem C2_roundtrip_eval :
    compileVoice 4 ("c4 e4 g4 c2").data =
      .ok [⟨261/2, 1⟩, ⟨329/2, 1⟩, ⟨392/2, 1⟩, ⟨261/2, 1⟩] ∧
    schedule 4 [⟨261/2, 1⟩, ⟨329/2, 1⟩, ⟨392/2, 1⟩, ⟨261/2, 1⟩] =
      [(0, 261/2), (7/8, 0), (1, 329/2), (15/8, 0), (2, 392/2), (23/8, 0),
       (3, 261/2), (31/8, 0), (4, 0)] ∧
    (1 : ℚ) ≠ 2 :=
  ⟨by with_unfolding_all rfl, by with_unfolding_all rfl, by norm_num⟩

/-- C3 counterexample: the claim says the continuity step uses the unsigned
difference, so a leap from b (index 11) down to c (index 0) decrements the
octave.  The code compares the signed difference, leaves the octave at 2,
and resolves the c at frequency 261/2 rather than the 261/4 the claim
mandates. -/
theorem C3_unsigned_diff_cex :
    claimedContinuityOctave 11 2 0 = 1 ∧ continuityOctave 11 2 0 = 2 ∧
    compileVoice 4 ['b', ' ', 'c'] = .ok [⟨493/2, 1⟩, ⟨261/2, 1⟩] ∧
    (261 : ℚ) / 2 ≠ 261 / 4 :=
  ⟨by rfl, by rfl, by with_unfolding_all rfl, by norm_num⟩

/-- C3 as amended: the continuity step uses the signed difference
`pitch_idx - last_pitch_idx`; only when that exceeds 6 is the octave
adjusted, and since the previous index is never negative the new index then
always exceeds 6, so the adjustment is always the clamped increment — a
downward leap never changes the octave. -/
theorem C3_signed_diff (lp : Int) (oct : Nat) (pidx : Int) (h : 0 ≤ lp) :
    continuityOctave lp oct pidx =
      if pidx - lp > 6 then
        (if oct + 1 < octaves.length then oct + 1 else oct)
      else oct := by
  unfold continuityOctave
  split
  next hgt => rw [if_pos (by omega : pidx > 6)]
  next => rfl

/-- C3 witness: the amended statement at a concrete upward leap. -/
theorem C3_signed_diff_witness : continuityOctave 0 2 7 = 3 :=
  (C3_signed_diff 0 2 7 (by decide)).trans (by rfl)

/-- C4: the claim says a duration digit d sets the resolved duration to
unit_length / d, so c2 under unit length 4 should last 2.  The capture
group for durations is the literal text 1-9, the digit 2 is never captured,
and the note keeps the default duration 1. -/
theorem C4_duration_digit_eval :
    compileVoice 4 ['c', '2'] = .ok [⟨261/2, 1⟩] ∧ (1 : ℚ) ≠ 4 / 2 :=
  ⟨by with_unfolding_all rfl, by norm_num⟩

/-- C5 counterexample: the token 4c violates the spec grammar (it does not
begin with letters), yet the voice consisting of it compiles successfully —
the unanchored pattern simply starts matching at the c. -/
theorem C5_grammar_cex :
    matchesSpecGrammar ['4', 'c'] = false ∧
    compileVoice 4 ['4', 'c'] = .ok [⟨261/2, 1⟩] :=
  ⟨by rfl, by with_unfolding_all rfl⟩

/-- C5 as amended: only a token containing no lowercase letter fails to
match, and that failure is a panic (a process abort via expect), not an
error result returned to the caller; it still prevents any partial result. -/
theorem C5_no_letter_panics (u : ℚ) (st : RState) (tok : List Char)
    (h : ∀ c ∈ tok, isLowerAZ c = false) :
    processToken u st tok = .error (.crashMalformedNote tok) ∧
    (VErr.crashMalformedNote tok).crashes = true := by
  refine ⟨?_, rfl⟩
  unfold processToken
  rw [rgxCaptures_eq_none tok h]

/-- C5 witness: a letterless token panics. -/
theorem C5_no_letter_panics_witness :
    processToken 4 (initState 4) ['4', '!'] =
      .error (.crashMalformedNote ['4', '!']) :=
  (C5_no_letter_panics 4 (initState 4) ['4', '!'] (by decide)).1

/-- C6: the schedule of a voice consists, per note in order, of a
set-frequency entry at the running offset and a mute entry at
offset + duration - unit_length/32, followed by exactly one terminal mute
entry at the sum of all durations; timestamps are non-decreasing whenever
the unit length is non-negative and no note is shorter than the staccato
gap — in particular for every successfully compiled voice. -/
theorem C6_schedule_shape :
    (∀ (u : ℚ) (ns : List Note),
      (schedule u ns).length = 2 * ns.length + 1 ∧
      (schedule u ns).getLast? = some (durSum ns, 0) ∧
      (∀ (i : Nat) (h : i < ns.length),
        (schedule u ns)[2 * i]? = some (durSum (ns.take i), ns[i].frequency) ∧
        (schedule u ns)[2 * i + 1]? =
          some (durSum (ns.take i) + ns[i].duration - u / 32, 0)) ∧
      (0 ≤ u → (∀ n ∈ ns, u / 32 ≤ n.duration) →
        List.Chain' (fun a b : ℚ × ℚ => a.1 ≤ b.1) (schedule u ns))) ∧
    (∀ (u : ℚ) (s : List Char) (ns : List Note), 0 ≤ u → compileVoice u s = .ok ns →
      List.Chain' (fun a b : ℚ × ℚ => a.1 ≤ b.1) (schedule u ns)) := by
  constructor
  · intro u ns
    refine ⟨scheduleFrom_length u 0 ns, ?_, ?_, ?_⟩
    · rw [List.getLast?_eq_getElem?, schedule, scheduleFrom_length u 0 ns]
      have h21 : 2 * ns.length + 1 - 1 = 2 * ns.length := by omega
      rw [h21]
      simpa using scheduleFrom_getElem_last u 0 ns
    · intro i h
      constructor
      · simpa [schedule] using scheduleFrom_getElem_even u 0 ns i h
      · simpa [schedule] using scheduleFrom_getElem_odd u 0 ns i h
    · intro hu hd
      exact scheduleFrom_chain u 0 ns hu hd
  · intro u s ns hu hok
    apply scheduleFrom_chain u 0 ns hu
    intro n hn
    rw [compileVoice_ok_duration u s ns hok n hn]
    linarith

/-- C6 witness: the schedule of a one-note voice at unit length 4. -/
theorem C6_schedule_shape_witness :
    (schedule 4 [Note.mk 261 1]).length = 2 * 1 + 1 ∧
    List.Chain' (fun a b : ℚ × ℚ => a.1 ≤ b.1) (schedule 4 [Note.mk 261 1]) := by
  constructor
  · exact (C6_schedule_shape.1 4 [Note.mk 261 1]).1
  · refine (C6_schedule_shape.1 4 [Note.mk 261 1]).2.2.2 (by norm_num) ?_
    intro n hn
    rw [List.mem_singleton.mp hn]
    exact (by norm_num : (4 : ℚ) / 32 ≤ 1)

/-- C7 counterexample: the voice with tokens ? and x4 contains a token with
the unrecognized pitch name x, but compilation does not fail with the
unknown-pitch error returned to the caller — it aborts earlier with a panic
on the letterless token ?. -/
theorem C7_earlier_panic_cex :
    pitchIndex ['x'] = none ∧
    compileVoice 4 ['?', ' ', 'x', '4'] = .error (.crashMalformedNote ['?']) ∧
    (VErr.crashMalformedNote ['?']).isUnknownPitch = false ∧
    (VErr.crashMalformedNote ['?']).crashes = true :=
  ⟨by rfl, by with_unfolding_all rfl, by rfl, by rfl⟩

/-- C7 as amended: a voice containing a token whose extracted pitch name is
neither r nor a known pitch never compiles (so no schedule is produced);
when every earlier token resolves without error the failure is exactly the
unknown-pitch error returned to the caller; and any failing voice aborts
the whole song compilation, so no generator is created. -/
theorem C7_unknown_pitch_prop :
    (∀ (u : ℚ) (s : List Char),
      (∃ tok ∈ splitWhitespace s, ∃ p, tokenPitch tok = some p ∧ p ≠ ['r'] ∧
        pitchIndex p = none) →
      ∃ e, compileVoice u s = .error e) ∧
    (∀ (u : ℚ) (s : List Char) (pre : List (List Char)) (tok : List Char)
      (post : List (List Char)) (ns : List Note) (st2 : RState) (p : List Char),
      splitWhitespace s = pre ++ tok :: post →
      resolveTokens u (initState u) pre = .ok (ns, st2) →
      tokenPitch tok = some p → p ≠ ['r'] → pitchIndex p = none →
      compileVoice u s = .error (.unknownPitch p tok)) ∧
    (∀ (u : ℚ) (vs : List (List Char)) (v : List Char), v ∈ vs →
      (∃ e, compileVoice u v = .error e) →
      ∃ e, compileSongVoices u vs = .error e) := by
  refine ⟨?_, ?_, ?_⟩
  · rintro u s ⟨tok, hmem, p, hp, hr, hu⟩
    obtain ⟨e, he⟩ := resolveTokens_err_of_mem u (splitWhitespace s) tok hmem
      (fun st => ⟨.unknownPitch p tok, processToken_unknownPitch tok p hp hr hu u st⟩)
      (initState u)
    exact ⟨e, by simp [compileVoice, he, Except.map]⟩
  · intro u s pre tok post ns st2 p hsplit hpre hp hr hu
    have he := resolveTokens_append_err u pre (initState u) st2 ns hpre tok post
      (.unknownPitch p tok) (processToken_unknownPitch tok p hp hr hu u st2)
    unfold compileVoice
    rw [hsplit, he]
    rfl
  · intro u vs v hmem hfail
    exact compileSongVoices_err u vs v hmem hfail

/-- C7 witness: the single-token voice x4 fails with the unknown-pitch
error. -/
theorem C7_unknown_pitch_witness :
    compileVoice 4 ['x', '4'] = .error (.unknownPitch ['x'] ['x', '4']) :=
  C7_unknown_pitch_prop.2.1 4 ['x', '4'] [] ['x', '4'] [] [] (initState 4)
    ['x'] (by rfl) (by rfl) (by rfl) (by decide) (by rfl)

/-- C8: a rest token (extracted pitch name r) resolves to frequency 0,
leaves the octave index and the last semitone index untouched, and runs
exactly the same duration step as a pitched token, updating the running
duration with its result. -/
theorem C8_rest (u : ℚ) (st : RState) (tok : List Char) (cap : Captures)
    (hcap : rgxCaptures tok = some cap) (hg1 : cap.g1 = ['r']) :
    processToken u st tok =
      (durationStep u st.last_duration cap tok).map
        (fun d => ({ st with last_duration := d }, (⟨0, d⟩ : Note))) := by
  cases hd : durationStep u st.last_duration cap tok with
  | error e => simp [processToken, hcap, hg1, hd, Except.map]
  | ok d => simp [processToken, hcap, hg1, hd, Except.map]

/-- C8 witness: the rest token r under the initial state of a voice with
unit length 4. -/
theorem C8_rest_witness :
    processToken 4 (initState 4) ['r'] =
      (durationStep 4 (initState 4).last_duration ⟨['r'], none, none, none⟩ ['r']).map
        (fun d => ({ initState 4 with last_duration := d }, (⟨0, d⟩ : Note))) :=
  C8_rest 4 (initState 4) ['r'] ⟨['r'], none, none, none⟩ (by rfl) (by rfl)

/-- C9: in every voice that compiles successfully every resolved note keeps
the default duration unit_length / 4, because the duration capture group of
the pattern is the literal text 1-9: it captures nothing or exactly that
text, and that text never parses as an unsigned integer. -/
theorem C9_default_duration :
    (∀ (u : ℚ) (s : List Char) (ns : List Note), compileVoice u s = .ok ns →
      ∀ n ∈ ns, n.duration = u / 4) ∧
    (∀ (tok : List Char) (cap : Captures), rgxCaptures tok = some cap →
      cap.g3 = none ∨
        (cap.g3 = some ['1', '-', '9'] ∧ parseU64 ['1', '-', '9'] = none)) := by
  constructor
  · exact compileVoice_ok_duration
  · intro tok cap hcap
    rcases rgxCaptures_g3 tok cap hcap with h | h
    · exact Or.inl h
    · exact Or.inr ⟨h, parseU64_litDur⟩

/-- C9 witness: the voice c2 compiles with the default duration 4 / 4. -/
theorem C9_default_duration_witness :
    (Note.mk (261/2) 1).duration = 4 / 4 :=
  C9_default_duration.1 4 ['c', '2'] [⟨261/2, 1⟩] (by with_unfolding_all rfl)
    ⟨261/2, 1⟩ (by simp)

/-- C10: the token pattern is unanchored, so any token containing a
lowercase letter matches — the pitch name is the first maximal run of
lowercase letters — and only a token with no lowercase letter fails; in
particular 4c and x!! match, and the voice 4c compiles. -/
theorem C10_unanchored :
    (∀ tok : List Char, (∃ c ∈ tok, isLowerAZ c = true) →
      ∃ cap, rgxCaptures tok = some cap ∧ cap.g1 = firstLowerRun tok) ∧
    (∀ tok : List Char, (∀ c ∈ tok, isLowerAZ c = false) →
      rgxCaptures tok = none) ∧
    rgxCaptures ['4', 'c'] = some ⟨['c'], none, none, none⟩ ∧
    rgxCaptures ['x', '!', '!'] = some ⟨['x'], none, none, some '!'⟩ ∧
    compileVoice 4 ['4', 'c'] = .ok [⟨261/2, 1⟩] :=
  ⟨rgxCaptures_eq_some, rgxCaptures_eq_none, by rfl, by rfl,
   by with_unfolding_all rfl⟩

/-- C10 witness: the token 4c matches with pitch name c, its first maximal
lowercase run. -/
theorem C10_unanchored_witness :
    ∃ cap, rgxCaptures ['4', 'c'] = some cap ∧ cap.g1 = firstLowerRun ['4', 'c'] :=
  C10_unanchored.1 ['4', 'c'] (by decide)
